import Mathlib

/-!
Verification of the CUE-generation core (`compiler/internal/cuegen/service.go`).

The development shallowly embeds the Go source:

* the schema side (`schema.Type`, `schema.Field`, declarations) as the mutual
  inductive family `SchemaType`/`SchemaField`;
* the CUE document AST (`cuelang.org/go/cue/ast`) as the single inductive
  `CueNode` — in the Go library every node implements the same dynamically
  typed `ast.Node` interface, so a single node type is the natural image;
* the per-service generator state (`service`) as the structure `Service`;
* each Go function of the file (`countNamedUsagesAndCollectImports`,
  `registerTopLevelField`, `generateCue`, `structToFields`, `toCueType`,
  `builtinToCue`) as a Lean function of the same name.

Go's recursion through the declaration registry is not structural (a named
type's resolved body is looked up in the registry), so the recursive
functions take an explicit fuel argument; running out of fuel is an error,
distinct from every result the Go code can produce.  `reflect.DeepEqual` on
AST values is embedded as the Boolean structural equality `beqNode`.

Collaborators that live outside this file in the repository
(`definitionGenerator`, `commentAlreadyPresent`, `addCommentToField`,
`schema.Walk`, `encoding.GetConcreteType`/`GetConcreteStructType`, the CUE
expression parser) are modelled from the specification; each such definition
carries a doc comment saying so.
-/

namespace Cuegen

/-- One comment line of the output document (`ast.Comment`).  `text` is the
full comment text including the leading slashes; `newSection` models whether
the comment's `Slash` position is `token.NewSection` (which forces a blank
line before the comment when printed). -/
structure Comment where
  text : String
  newSection : Bool
deriving DecidableEq

/-- A comment block attached to a node (`ast.CommentGroup`): a relative
`position` and the list of comment lines. -/
structure CommentGroup where
  position : Nat
  lines : List Comment
deriving DecidableEq

/-- An import specification (`ast.ImportSpec`, built by `ast.NewImport`):
an optional explicit alias and the imported package path. -/
structure ImportSpec where
  specName : Option String
  path : String
deriving DecidableEq

/-- A structured struct-field tag (schema side): key (for example "json" or
"cue"), optional name, and option flags. -/
structure Tag where
  key : String
  name : String
  options : List String
deriving DecidableEq

/-- The CUE document AST (`cuelang.org/go/cue/ast`), restricted to the node
shapes `service.go` builds.  `ident` models `ast.Ident` (the Boolean models
whether its `NamePos` is `token.NewSection`); `sel` a selector expression;
`and` a binary `token.AND` expression (`ast.NewBinExpr`); `structLit` a
struct literal containing field nodes; `listLit` a list literal; `ellipsis`
an `ast.Ellipsis` element; `listLabel` a list-enclosed pattern label (the
`[K]` key of a map); `field` an `ast.Field` with label, value, optional
marker and attached comment groups. -/
inductive CueNode where
  | ident (name : String) (newSection : Bool)
  | sel (base : CueNode) (selName : String)
  | and (lhs rhs : CueNode)
  | structLit (elems : List CueNode)
  | listLit (elems : List CueNode)
  | ellipsis (typ : CueNode)
  | listLabel (key : CueNode)
  | field (label : CueNode) (value : CueNode) (optional : Bool) (comments : List CommentGroup)

/-- Top-level declarations of the generated file (`ast.Decl`): the package
clause, an import declaration, or a field. -/
inductive CueDecl where
  | pkg (name : String)
  | importDecl (specs : List ImportSpec)
  | fieldDecl (f : CueNode)

/-- The generated file (`ast.File`): its declarations in order and the
file-level comment groups. -/
structure CueFile where
  decls : List CueDecl
  comments : List CommentGroup

mutual
/-- The service's internal type schema (`schema.Type`): a tagged union over
named references (carrying the declaration id), struct types, maps, lists,
builtin primitives (as `Nat` codes) and the transparent `config.Value`
wrapper. -/
inductive SchemaType where
  | named (id : Nat)
  | struct (fields : List SchemaField)
  | map (key value : SchemaType)
  | list (elem : SchemaType)
  | builtin (b : Nat)
  | config (elem : SchemaType)

/-- A struct field of the schema (`schema.Field`): name, type, documentation
(as a list of lines) and structured tags. -/
inductive SchemaField where
  | mk (name : String) (typ : SchemaType) (doc : List String) (tags : List Tag)
end

/-- Field name of a schema field. -/
def SchemaField.name : SchemaField → String
  | .mk n _ _ _ => n

/-- Type of a schema field. -/
def SchemaField.typ : SchemaField → SchemaType
  | .mk _ t _ _ => t

/-- A declaration of the registry (`meta.Decls` entry): name, resolved body
and documentation. -/
structure Decl where
  name : String
  typ : SchemaType
  doc : List String

/-- The per-service generator state (the Go struct `service`).  `parse` is
the external CUE expression parser (`parser.ParseExpr`), supplied as an
opaque-to-the-core function; `typeUsage` is the usage table of the
`definitionGenerator` as an insertion-ordered association list from
declaration id to reference count. -/
structure Service where
  svcName : String
  decls : List Decl
  parse : String → Option CueNode
  neededImports : List (String × String)
  topLevelFields : List CueNode
  typeUsage : List (Nat × Nat)

/-! ### Builtin primitives -/

abbrev Builtin_ANY : Nat := 0
abbrev Builtin_BOOL : Nat := 1
abbrev Builtin_INT8 : Nat := 2
abbrev Builtin_INT16 : Nat := 3
abbrev Builtin_INT32 : Nat := 4
abbrev Builtin_INT64 : Nat := 5
abbrev Builtin_UINT8 : Nat := 6
abbrev Builtin_UINT16 : Nat := 7
abbrev Builtin_UINT32 : Nat := 8
abbrev Builtin_UINT64 : Nat := 9
abbrev Builtin_FLOAT32 : Nat := 10
abbrev Builtin_FLOAT64 : Nat := 11
abbrev Builtin_STRING : Nat := 12
abbrev Builtin_BYTES : Nat := 13
abbrev Builtin_TIME : Nat := 14
abbrev Builtin_UUID : Nat := 15
abbrev Builtin_JSON : Nat := 16
abbrev Builtin_USER_ID : Nat := 17
abbrev Builtin_INT : Nat := 18
abbrev Builtin_UINT : Nat := 19

/-- The fixed builtin-to-CUE mapping (`builtinToCue`).  Builtin kinds are
`Nat` codes (the protobuf enum is an open integer type); the `none` result
models the `panic` branch for a code outside the known vocabulary. -/
def builtinToCue : Nat → Option CueNode
  | 0 => some (.ident "_" false)
  | 1 => some (.ident "bool" false)
  | 2 => some (.ident "int8" false)
  | 3 => some (.ident "int16" false)
  | 4 => some (.ident "int32" false)
  | 5 => some (.ident "int64" false)
  | 6 => some (.ident "uint8" false)
  | 7 => some (.ident "uint16" false)
  | 8 => some (.ident "uint32" false)
  | 9 => some (.ident "uint64" false)
  | 10 => some (.ident "float32" false)
  | 11 => some (.ident "float64" false)
  | 12 => some (.ident "string" false)
  | 13 => some (.ident "bytes" false)
  | 14 => some (.sel (.ident "time" false) "Time")
  | 15 => some (.ident "string" false)
  | 16 => some (.ident "string" false)
  | 17 => some (.ident "string" false)
  | 18 => some (.ident "int" false)
  | 19 => some (.ident "uint" false)
  | _ => none

/-! ### Deep equality on AST nodes (`reflect.DeepEqual`) -/

mutual
/-- Structural equality of AST nodes, the embedding of
`reflect.DeepEqual(existing.Value, field.Value)`. -/
def beqNode : CueNode → CueNode → Bool
  | .ident a s1, .ident b s2 => a == b && s1 == s2
  | .sel b1 f1, .sel b2 f2 => beqNode b1 b2 && f1 == f2
  | .and l1 r1, .and l2 r2 => beqNode l1 l2 && beqNode r1 r2
  | .structLit es1, .structLit es2 => beqNodeList es1 es2
  | .listLit es1, .listLit es2 => beqNodeList es1 es2
  | .ellipsis t1, .ellipsis t2 => beqNode t1 t2
  | .listLabel k1, .listLabel k2 => beqNode k1 k2
  | .field l1 v1 o1 c1, .field l2 v2 o2 c2 =>
    beqNode l1 l2 && beqNode v1 v2 && o1 == o2 && c1 == c2
  | _, _ => false
termination_by structural n _ => n

/-- Structural equality of node lists, used by `beqNode`. -/
def beqNodeList : List CueNode → List CueNode → Bool
  | [], [] => true
  | e1 :: r1, e2 :: r2 => beqNode e1 e2 && beqNodeList r1 r2
  | _, _ => false
termination_by structural l _ => l
end

/-! ### Helpers on fields and comments -/

/-- Label name of a field node (`ast.LabelName(field.Label)`): defined for
identifier labels, undefined (an error in Go) otherwise. -/
def labelName : CueNode → Option String
  | .field (.ident n _) _ _ _ => some n
  | _ => none

/-- Value of a field node. -/
def fieldValue : CueNode → Option CueNode
  | .field _ v _ _ => some v
  | _ => none

/-- Optional marker of a field node. -/
def fieldOptional : CueNode → Option Bool
  | .field _ _ o _ => some o
  | _ => none

/-- Comment groups attached to a field node. -/
def fieldComments : CueNode → List CommentGroup
  | .field _ _ _ c => c
  | _ => []

/-- All comment line texts of a list of comment groups. -/
def commentTexts (gs : List CommentGroup) : List String :=
  gs.flatMap (fun g => g.lines.map Comment.text)

/-- Modelled from the spec: `commentAlreadyPresent` (defined elsewhere in
the `cuegen` package) decides whether an incoming comment group is already
present on the existing comment groups, by text equality of its lines
("new comment lines not already present, by text equality, are appended"). -/
def commentAlreadyPresent (existing : List CommentGroup) (cg : CommentGroup) : Bool :=
  cg.lines.all (fun c => (commentTexts existing).contains c.text)

/-- Modelled from the spec: `addCommentToField` (defined elsewhere in the
`cuegen` package) attaches the documentation as a comment block rendered
above the field; each documentation line becomes one comment line. -/
def addCommentToField (f : CueNode) (doc : List String) : CueNode :=
  match f with
  | .field label value opt comments =>
    .field label value opt (comments ++ [⟨0, doc.map (fun l => ⟨"// " ++ l, false⟩)⟩])
  | other => other

/-! ### The type translator -/

/-- Reference count of a named type in the usage table
(`definitionGenerator.Count`), zero when absent.  Modelled from the spec:
the usage table maps each counted named type to its reference count. -/
def countOf (tbl : List (Nat × Nat)) (id : Nat) : Nat :=
  (tbl.lookup id).getD 0

/-- Modelled from the spec: `definitionGenerator.CueIdent` assigns each
hoisted named type a stable output identifier derived from its schema
identifier; we derive it from the declaration's name. -/
def defName (s : Service) (id : Nat) : String :=
  "#" ++ (((s.decls.get? id).map Decl.name).getD "")

/-- One step of the tag loop of `structToFields`: given the accumulated
(label, value, optional) triple, apply one structured tag.  A "json" tag
with a non-empty name overrides the label, and its "omitempty" option marks
the field optional; a "cue" tag with a non-empty name is parsed as a CUE
expression and conjoined with the value (a parse failure is an error), and
its "opt" option marks the field optional. -/
def applyTag (parse : String → Option CueNode) (acc : String × CueNode × Bool) (tag : Tag) :
    Except String (String × CueNode × Bool) :=
  let label := if tag.key = "json" ∧ tag.name ≠ "" then tag.name else acc.1
  let opt := if tag.key = "json" ∧ tag.options.contains "omitempty" then true else acc.2.2
  if tag.key = "cue" then
    let opt := if tag.options.contains "opt" then true else opt
    if tag.name ≠ "" then
      match parse tag.name with
      | none => .error ("failed to parse cue tag: " ++ tag.name)
      | some e => .ok (label, .and acc.2.1 e, opt)
    else
      .ok (label, acc.2.1, opt)
  else
    .ok (label, acc.2.1, opt)

/-- The per-field body of `structToFields`, abstracted over the recursive
translation of the field's type (`rec`): translate the type, fold the tags,
mark optionality, and attach the documentation comment. -/
def fieldToCueAux (parse : String → Option CueNode)
    (recType : SchemaType → Except String CueNode) : SchemaField → Except String CueNode :=
  fun fld =>
    match fld with
    | .mk fname ftyp fdoc ftags => do
      let v ← recType ftyp
      let r ← ftags.foldlM (applyTag parse) (fname, v, false)
      let base : CueNode := .field (.ident r.1 false) r.2.1 r.2.2 []
      pure (if fdoc ≠ [] then addCommentToField base fdoc else base)

/-- The recursive schema-to-CUE translator (`toCueType`).  `fuel` bounds the
number of named-reference resolutions (Go recurses through the registry,
which is acyclic by construction); every other case is structural.  A named
type used at most once is inlined by translating its resolved body; a named
type used more than once translates to a reference to its assigned output
identifier.  Structs translate their fields, maps become a struct literal
with a list-pattern key, lists become an open-ended list, builtins use the
fixed mapping (an unknown code is the fatal error branch), and the
`config.Value` wrapper is invisible. -/
def toCueType (s : Service) : Nat → SchemaType → Except String CueNode
  | 0, _ => .error "recursion limit reached"
  | fuel + 1, t =>
    match t with
    | .named id =>
      if countOf s.typeUsage id ≤ 1 then
        match s.decls.get? id with
        | none => .error "cannot resolve type"
        | some d => toCueType s fuel d.typ
      else
        .ok (.ident (defName s id) false)
    | .struct fields =>
      (fields.mapM (fieldToCueAux s.parse (toCueType s fuel))).map (fun fs => .structLit fs)
    | .map k v => do
      let kt ← toCueType s fuel k
      let vt ← toCueType s fuel v
      .ok (.structLit [.field (.listLabel kt) vt false []])
    | .list e => (toCueType s fuel e).map (fun te => .listLit [.ellipsis te])
    | .builtin b =>
      match builtinToCue b with
      | some e => .ok e
      | none => .error "unknown builtin"
    | .config e => toCueType s fuel e

/-- One field of `structToFields` (the loop body), with the recursive calls
made at the given fuel. -/
def fieldToCue (s : Service) (fuel : Nat) : SchemaField → Except String CueNode :=
  fieldToCueAux s.parse (toCueType s fuel)

/-- `structToFields`: convert a struct's fields to CUE field nodes. -/
def structToFields (s : Service) (fuel : Nat) (fields : List SchemaField) :
    Except String (List CueNode) :=
  fields.mapM (fieldToCue s fuel)

/-! ### Field registration and merging -/

/-- Modelled from the spec: `encoding.GetConcreteStructType` resolves a
schema type through the declaration registry and requires the result to be
a struct type, failing otherwise. -/
def resolveStructFields (s : Service) (typ : SchemaType) : Option (List SchemaField) :=
  match typ with
  | .named id =>
    match s.decls.get? id with
    | some d =>
      match d.typ with
      | .struct fs => some fs
      | _ => none
    | none => none
  | .struct fs => some fs
  | _ => none

/-- Append comment lines to the first comment group (the in-place append to
`existingCommentGrp.List` of `registerTopLevelField`). -/
def appendToFirstGroup (gs : List CommentGroup) (cs : List Comment) : List CommentGroup :=
  match gs with
  | g :: rest => ⟨g.position, g.lines ++ cs⟩ :: rest
  | [] => []

/-- The repositioning step of `registerTopLevelField`: when the first
comment group's line list is non-empty, set its position to 0 and the first
comment's slash position to `token.NewSection`. -/
def repositionFirstGroup (gs : List CommentGroup) : List CommentGroup :=
  match gs with
  | g :: rest =>
    match g.lines with
    | [] => g :: rest
    | c :: cs => (⟨0, ⟨c.text, true⟩ :: cs⟩ : CommentGroup) :: rest
  | [] => []

/-- The merge performed by `registerTopLevelField` when a field with the
same label name already exists: comment groups of the incoming field that
are not already present are appended to the existing first group, the
(always non-empty) group is then repositioned; the values are conjoined
with `token.AND` unless they are deep-equal.  The existing field's label
and optional marker are kept as they are. -/
def mergeExisting (ex incoming : CueNode) : CueNode :=
  match ex, incoming with
  | .field exLab exV exO exC, .field _ inV _ inC =>
    let exC1 :=
      if inC.isEmpty then exC
      else if exC.isEmpty then inC
      else
        repositionFirstGroup
          (inC.foldl
            (fun acc cg =>
              if commentAlreadyPresent acc cg then acc else appendToFirstGroup acc cg.lines)
            exC)
    .field exLab (if beqNode exV inV then exV else .and exV inV) exO exC1
  | e, _ => e

/-- Fold one produced field into the running field table (the loop body of
`registerTopLevelField`): fields whose label name already occurs are merged
into the existing entry, new labels are appended at the end (first-seen
order). -/
def registerField (st : List CueNode) (fld : CueNode) : Except String (List CueNode) :=
  match labelName fld with
  | none => .error "cannot determine label name"
  | some name =>
    if st.any (fun e => labelName e == some name) then
      .ok (st.map (fun e => if labelName e == some name then mergeExisting e fld else e))
    else
      .ok (st ++ [fld])

/-- `registerTopLevelField`: resolve the declared type to a concrete struct,
convert it to fields, and fold each field into the service's table. -/
def registerTopLevelField (s : Service) (fuel : Nat) (typ : SchemaType) :
    Except String Service :=
  match resolveStructFields s typ with
  | none => .error "unable to resolve to a concrete struct type"
  | some fields =>
    match structToFields s fuel fields with
    | .error msg => .error msg
    | .ok flds =>
      match flds.foldlM registerField s.topLevelFields with
      | .error msg => .error msg
      | .ok merged => .ok { s with topLevelFields := merged }

/-! ### The usage-counting pass -/

/-- Increment the reference count of a named type
(`definitionGenerator.Inc`); modelled from the spec: a first encounter
inserts the type with count one, later encounters increment. -/
def incUsage (tbl : List (Nat × Nat)) (id : Nat) : List (Nat × Nat) :=
  if tbl.any (fun e => e.1 == id) then
    tbl.map (fun e => if e.1 == id then (e.1, e.2 + 1) else e)
  else
    tbl ++ [(id, 1)]

/-- Record a needed import (the Go map assignment
`s.neededImports[path] = name`). -/
def addImport (imps : List (String × String)) (path name : String) : List (String × String) :=
  if imps.any (fun e => e.1 == path) then
    imps.map (fun e => if e.1 == path then (e.1, name) else e)
  else
    imps ++ [(path, name)]

/-- Modelled from the spec: `schema.Walk` visits every node of a type,
recursing into the resolved declaration of each named reference as often as
it is encountered.  This function is the walk specialised to the callback
of `countNamedUsagesAndCollectImports`: named references increment the
usage table, and the TIME builtin records the "time" import. -/
def walkType (decls : List Decl) :
    Nat → SchemaType → List (Nat × Nat) × List (String × String) →
    Except String (List (Nat × Nat) × List (String × String))
  | 0, _, _ => .error "recursion limit reached"
  | fuel + 1, t, acc =>
    match t with
    | .named id =>
      match decls.get? id with
      | none => .error "cannot resolve type"
      | some d => walkType decls fuel d.typ (incUsage acc.1 id, acc.2)
    | .struct fields =>
      fields.foldlM (fun a f => walkType decls fuel f.typ a) acc
    | .map k v => do
      let a1 ← walkType decls fuel k acc
      walkType decls fuel v a1
    | .list e => walkType decls fuel e acc
    | .builtin b =>
      .ok (acc.1, if b == Builtin_TIME then addImport acc.2 "time" "time" else acc.2)
    | .config e => walkType decls fuel e acc

/-- `countNamedUsagesAndCollectImports`: run the counting walk over a
declared type, updating the service's usage table and import set. -/
def countNamedUsagesAndCollectImports (s : Service) (fuel : Nat) (typ : SchemaType) :
    Except String Service := do
  let acc ← walkType s.decls fuel typ (s.typeUsage, s.neededImports)
  .ok { s with typeUsage := acc.1, neededImports := acc.2 }

/-! ### Document assembly -/

/-- Modelled from the spec: `definitionGenerator.NamesWithCountsOver`
returns the named types whose reference count exceeds the bound, in table
(first-seen) order. -/
def namesWithCountsOver (tbl : List (Nat × Nat)) (n : Nat) : List Nat :=
  (tbl.filter (fun e => n < e.2)).map Prod.fst

/-- The fixed generated-file comment block added by `generateCue`. -/
def generatedFileHeader : CommentGroup :=
  ⟨0,
    [⟨"// Code generated by encore. DO NOT EDIT.", false⟩,
     ⟨"//", false⟩,
     ⟨"// The contents of this file are generated from the structs used in", false⟩,
     ⟨"// conjunction with Encore's `config.Load[T]()` function. This file", false⟩,
     ⟨"// automatically be regenerated if the data types within the struct", false⟩,
     ⟨"// are changed.", false⟩,
     ⟨"//", false⟩,
     ⟨"// For more information about this file, see:", false⟩,
     ⟨"// https://encore.dev/docs/develop/config", false⟩]⟩

/-- The import section of `generateCue`: the import paths sorted
lexicographically, each given an explicit alias exactly when the desired
local name differs from the path. -/
def importSpecs (imps : List (String × String)) : List ImportSpec :=
  (List.insertionSort (· ≤ ·) (imps.map Prod.fst)).map (fun p =>
    let nm := (imps.lookup p).getD p
    ⟨if nm = p then none else some nm, p⟩)

/-- One hoisted definition of `generateCue`'s loop: resolve the declaration,
translate its body, label it with its assigned identifier (positioned on a
new section when it has no documentation, otherwise annotated with the
documentation comment). -/
def genDef (s : Service) (fuel : Nat) (id : Nat) : Except String CueNode :=
  match s.decls.get? id with
  | none => .error "cannot resolve type"
  | some d => do
    let v ← toCueType s fuel d.typ
    let fld : CueNode := .field (.ident (defName s id) d.doc.isEmpty) v false []
    .ok (if d.doc.isEmpty then fld else addCommentToField fld d.doc)

/-- All hoisted definitions: one per named type whose usage count exceeds
one. -/
def genDefs (s : Service) (fuel : Nat) : Except String (List CueNode) :=
  (namesWithCountsOver s.typeUsage 1).mapM (genDef s fuel)

/-- `generateCue`: assemble the output document, or produce nothing when the
field table is empty.  The document is the package clause with the fixed
generated-file header, the sorted imports (when any), the hoisted
definitions, then the merged top-level fields in first-seen order. -/
def generateCue (s : Service) (fuel : Nat) : Except String (Option CueFile) :=
  if s.topLevelFields.isEmpty then .ok none
  else
    let importDecls : List CueDecl :=
      if s.neededImports.isEmpty then [] else [.importDecl (importSpecs s.neededImports)]
    match genDefs s fuel with
    | .error msg => .error msg
    | .ok defs =>
      .ok (some
        ⟨.pkg s.svcName ::
            (importDecls ++ (defs.map .fieldDecl ++ s.topLevelFields.map .fieldDecl)),
          [generatedFileHeader]⟩)

/-! ### Definitions used by the claim statements and witnesses -/

/-- `t` translates to `e` when some resolution budget suffices. -/
def translates (s : Service) (t : SchemaType) (e : CueNode) : Prop :=
  ∃ fuel, toCueType s fuel t = .ok e

/-- The twenty known builtin codes. -/
def knownBuiltins : List Nat :=
  [Builtin_ANY, Builtin_BOOL, Builtin_INT8, Builtin_INT16, Builtin_INT32, Builtin_INT64,
   Builtin_UINT8, Builtin_UINT16, Builtin_UINT32, Builtin_UINT64,
   Builtin_FLOAT32, Builtin_FLOAT64, Builtin_STRING, Builtin_BYTES, Builtin_TIME,
   Builtin_UUID, Builtin_JSON, Builtin_USER_ID, Builtin_INT, Builtin_UINT]

/-- A service with two configuration declarations contributing the same
field label "x": the first declaration's field carries no tags, the second
carries `json:",omitempty"`. -/
def svcOptional : Service :=
  ⟨"svc",
   [⟨"CfgA", .struct [.mk "x" (.builtin Builtin_STRING) [] []], []⟩,
    ⟨"CfgB", .struct [.mk "x" (.builtin Builtin_STRING) [] [⟨"json", "", ["omitempty"]⟩]], []⟩],
   fun _ => none, [], [], []⟩

/-- A service with two configuration declarations contributing the same
field label "x", both with the identical one-line documentation comment. -/
def svcDocline : Service :=
  ⟨"svc",
   [⟨"CfgA", .struct [.mk "x" (.builtin Builtin_STRING) ["docline"] []], []⟩,
    ⟨"CfgB", .struct [.mk "x" (.builtin Builtin_STRING) ["docline"] []], []⟩],
   fun _ => none, [], [], []⟩

/-- A service whose parser accepts exactly the fragment "int & >=0". -/
def svcParse : Service :=
  ⟨"svc", [⟨"Cfg", .struct [.mk "x" (.builtin Builtin_INT)
      [] [⟨"cue", "bad", []⟩]], []⟩],
   fun frag => if frag = "int & >=0" then some (.and (.ident "int" false) (.ident ">=0" false))
     else none,
   [], [], []⟩

/-- A service with one named type used once and one used twice. -/
def svcHoist : Service :=
  ⟨"svc", [⟨"Single", .struct [], []⟩, ⟨"Shared", .struct [], []⟩],
   fun _ => none, [], [], [(0, 1), (1, 2)]⟩

/-- A service with one import, one hoisted type and one top-level field. -/
def svcAssembly : Service :=
  ⟨"svc", [⟨"Shared", .struct [], []⟩],
   fun _ => none, [("time", "time")],
   [.field (.ident "x" false) (.ident "string" false) false []],
   [(0, 2)]⟩

end Cuegen

namespace Cuegen

mutual
theorem beqNode_refl : ∀ (e : CueNode), beqNode e e = true
  | .ident a s => by simp [beqNode]
  | .sel b f => by simp [beqNode, beqNode_refl b]
  | .and l r => by simp [beqNode, beqNode_refl l, beqNode_refl r]
  | .structLit es => by simp [beqNode, beqNodeList_refl es]
  | .listLit es => by simp [beqNode, beqNodeList_refl es]
  | .ellipsis t => by simp [beqNode, beqNode_refl t]
  | .listLabel k => by simp [beqNode, beqNode_refl k]
  | .field l v o c => by simp [beqNode, beqNode_refl l, beqNode_refl v]
termination_by structural e => e

theorem beqNodeList_refl : ∀ (l : List CueNode), beqNodeList l l = true
  | [] => by simp [beqNodeList]
  | e :: r => by simp [beqNodeList, beqNode_refl e, beqNodeList_refl r]
termination_by structural l => l
end

/-! ### Association-list helpers -/

theorem lookup_eq_some_of_nodup {α β : Type} [BEq α] [LawfulBEq α]
    {tbl : List (α × β)} {k : α} {v : β}
    (hnd : (tbl.map Prod.fst).Nodup) (hmem : (k, v) ∈ tbl) : tbl.lookup k = some v := by
  induction tbl with
  | nil => cases hmem
  | cons hd rest ih =>
    obtain ⟨a, b⟩ := hd
    simp only [List.map_cons, List.nodup_cons] at hnd
    rcases List.mem_cons.mp hmem with heq | hmem'
    · obtain ⟨rfl, rfl⟩ := Prod.mk.injEq .. ▸ heq
      simp [List.lookup]
    · have hka : k ≠ a := by
        rintro rfl
        exact hnd.1 (List.mem_map.mpr ⟨(k, v), hmem', rfl⟩)
      have hbeq : (k == a) = false := beq_false_of_ne hka
      simp [List.lookup, hbeq, ih hnd.2 hmem']

theorem mem_of_lookup_eq_some {α β : Type} [BEq α] [LawfulBEq α]
    {tbl : List (α × β)} {k : α} {v : β} (h : tbl.lookup k = some v) : (k, v) ∈ tbl := by
  induction tbl with
  | nil => simp [List.lookup] at h
  | cons hd rest ih =>
    obtain ⟨a, b⟩ := hd
    by_cases hka : k == a
    · simp [List.lookup, hka] at h
      subst h
      exact List.mem_cons.mpr (Or.inl (by rw [eq_of_beq hka]))
    · simp only [List.lookup, hka] at h
      exact List.mem_cons.mpr (Or.inr (ih h))

theorem mem_namesWithCountsOver {tbl : List (Nat × Nat)} {id n : Nat} :
    id ∈ namesWithCountsOver tbl n ↔ ∃ c, (id, c) ∈ tbl ∧ n < c := by
  simp only [namesWithCountsOver, List.mem_map, List.mem_filter]
  constructor
  · rintro ⟨⟨a, b⟩, ⟨hmem, hlt⟩, rfl⟩
    exact ⟨b, hmem, by simpa using hlt⟩
  · rintro ⟨c, hmem, hlt⟩
    exact ⟨(id, c), ⟨hmem, by simpa using hlt⟩, rfl⟩

theorem not_mem_namesWithCountsOver_of_count_le {tbl : List (Nat × Nat)} {id : Nat}
    (hnd : (tbl.map Prod.fst).Nodup) (hle : countOf tbl id ≤ 1) :
    id ∉ namesWithCountsOver tbl 1 := by
  intro hmem
  obtain ⟨c, hc, hlt⟩ := mem_namesWithCountsOver.mp hmem
  have : tbl.lookup id = some c := lookup_eq_some_of_nodup hnd hc
  simp [countOf, this] at hle
  omega

theorem count_namesWithCountsOver_eq_one {tbl : List (Nat × Nat)} {id c : Nat}
    (hnd : (tbl.map Prod.fst).Nodup) (hmem : (id, c) ∈ tbl) (hc : 1 < c) :
    (namesWithCountsOver tbl 1).count id = 1 := by
  induction tbl with
  | nil => cases hmem
  | cons hd rest ih =>
    obtain ⟨a, b⟩ := hd
    simp only [List.map_cons, List.nodup_cons] at hnd
    rcases List.mem_cons.mp hmem with heq | hmem'
    · obtain ⟨rfl, rfl⟩ := Prod.mk.injEq .. ▸ heq
      have hrest : id ∉ namesWithCountsOver rest 1 := by
        intro hm
        obtain ⟨c', hc', _⟩ := mem_namesWithCountsOver.mp hm
        exact hnd.1 (List.mem_map.mpr ⟨(id, c'), hc', rfl⟩)
      have h0 : (namesWithCountsOver rest 1).count id = 0 := List.count_eq_zero.mpr hrest
      simp only [namesWithCountsOver, List.filter_cons] at h0 ⊢
      simp [hc, List.count_cons, h0]
    · have hne : a ≠ id := by
        rintro rfl
        exact hnd.1 (List.mem_map.mpr ⟨(a, c), hmem', rfl⟩)
      by_cases hb : 1 < b
      · simp [namesWithCountsOver, List.filter_cons, hb, List.count_cons, hne,
          ih hnd.2 hmem']
        simpa [namesWithCountsOver] using ih hnd.2 hmem'
      · simp only [namesWithCountsOver, List.filter_cons] at *
        simp [hb]
        simpa [namesWithCountsOver] using ih hnd.2 hmem'

/-! ### Comment-merge helpers -/

theorem commentAlreadyPresent_of_mem {gs : List CommentGroup} {cg : CommentGroup}
    (h : cg ∈ gs) : commentAlreadyPresent gs cg = true := by
  simp only [commentAlreadyPresent, List.all_eq_true]
  intro c hc
  refine List.elem_iff.mpr ?_
  simp only [commentTexts, List.mem_flatMap]
  exact ⟨cg, h, List.mem_map.mpr ⟨c, hc, rfl⟩⟩

theorem foldl_merge_no_op {acc : List CommentGroup} :
    ∀ (l : List CommentGroup), (∀ cg ∈ l, commentAlreadyPresent acc cg = true) →
      l.foldl
        (fun a cg => if commentAlreadyPresent a cg then a else appendToFirstGroup a cg.lines)
        acc = acc
  | [], _ => rfl
  | cg :: rest, h => by
    have hcg := h cg (List.mem_cons_self ..)
    simp only [List.foldl_cons, hcg, if_pos]
    exact foldl_merge_no_op rest (fun g hg => h g (List.mem_cons_of_mem _ hg))

theorem commentTexts_repositionFirstGroup (gs : List CommentGroup) :
    commentTexts (repositionFirstGroup gs) = commentTexts gs := by
  match gs with
  | [] => rfl
  | g :: rest =>
    match h : g.lines with
    | [] => simp [repositionFirstGroup, h]
    | c :: cs => simp [repositionFirstGroup, h, commentTexts]

/-! ### Basic facts about the translator -/

/-- The struct branch of `toCueType` is exactly `structToFields` wrapped in
a struct literal (the Go code calls `s.structToFields` there). -/
theorem toCueType_struct (s : Service) (fuel : Nat) (fields : List SchemaField) :
    toCueType s (fuel + 1) (.struct fields) =
      (structToFields s fuel fields).map (fun fs => .structLit fs) := rfl

/-- C6: the translation of every builtin primitive kind equals the fixed
mapping table (ANY is the top value, the sized integer and float kinds map
to the CUE identifiers of the same name, TIME maps to the namespaced
selector `time.Time`, UUID/JSON/USER_ID map to `string`), and every code
outside the enumerated vocabulary hits the fatal error branch (`none`
models the panic). -/
theorem builtin_mapping_table :
    builtinToCue Builtin_ANY = some (.ident "_" false) ∧
    builtinToCue Builtin_BOOL = some (.ident "bool" false) ∧
    builtinToCue Builtin_INT8 = some (.ident "int8" false) ∧
    builtinToCue Builtin_INT16 = some (.ident "int16" false) ∧
    builtinToCue Builtin_INT32 = some (.ident "int32" false) ∧
    builtinToCue Builtin_INT64 = some (.ident "int64" false) ∧
    builtinToCue Builtin_UINT8 = some (.ident "uint8" false) ∧
    builtinToCue Builtin_UINT16 = some (.ident "uint16" false) ∧
    builtinToCue Builtin_UINT32 = some (.ident "uint32" false) ∧
    builtinToCue Builtin_UINT64 = some (.ident "uint64" false) ∧
    builtinToCue Builtin_FLOAT32 = some (.ident "float32" false) ∧
    builtinToCue Builtin_FLOAT64 = some (.ident "float64" false) ∧
    builtinToCue Builtin_STRING = some (.ident "string" false) ∧
    builtinToCue Builtin_BYTES = some (.ident "bytes" false) ∧
    builtinToCue Builtin_TIME = some (.sel (.ident "time" false) "Time") ∧
    builtinToCue Builtin_UUID = some (.ident "string" false) ∧
    builtinToCue Builtin_JSON = some (.ident "string" false) ∧
    builtinToCue Builtin_USER_ID = some (.ident "string" false) ∧
    builtinToCue Builtin_INT = some (.ident "int" false) ∧
    builtinToCue Builtin_UINT = some (.ident "uint" false) ∧
    ∀ b : Nat, b ∉ knownBuiltins → builtinToCue b = none := by
  refine ⟨rfl, rfl, rfl, rfl, rfl, rfl, rfl, rfl, rfl, rfl, rfl, rfl, rfl, rfl, rfl, rfl,
    rfl, rfl, rfl, rfl, ?_⟩
  intro b hb
  have h20 : 20 ≤ b := by
    by_contra hlt
    push_neg at hlt
    interval_cases b <;> exact hb (by decide)
  obtain ⟨k, rfl⟩ : ∃ k, b = k + 20 := ⟨b - 20, by omega⟩
  rfl

/-- Witness for `builtin_mapping_table`: the error branch at the concrete
out-of-vocabulary code 42. -/
theorem builtin_mapping_table_witness : builtinToCue 42 = none :=
  builtin_mapping_table.2.2.2.2.2.2.2.2.2.2.2.2.2.2.2.2.2.2.2.2 42 (by decide)

/-- C7: the `config.Value` wrapper is invisible: translating a wrapper
around an inner type is the very same computation as translating the inner
type (at the budget left after the wrapper step), and consequently the
wrapper translates to an expression exactly when the inner type translates
to that same expression. -/
theorem config_wrapper_transparent (s : Service) (fuel : Nat) (t : SchemaType) :
    toCueType s (fuel + 1) (.config t) = toCueType s fuel t ∧
    ∀ e : CueNode, translates s (.config t) e ↔ translates s t e := by
  refine ⟨rfl, fun e => ⟨?_, ?_⟩⟩
  · rintro ⟨f, hf⟩
    match f with
    | 0 => exact absurd hf (by simp [toCueType])
    | f' + 1 => exact ⟨f', hf⟩
  · rintro ⟨f, hf⟩
    exact ⟨f + 1, hf⟩

/-- Witness for `config_wrapper_transparent` at a concrete service and
inner type. -/
theorem config_wrapper_transparent_witness :
    translates ⟨"w", [], fun _ => none, [], [], []⟩ (.config (.builtin 1)) (.ident "bool" false) :=
  (config_wrapper_transparent ⟨"w", [], fun _ => none, [], [], []⟩ 1 (.builtin 1)).2
    (.ident "bool" false) |>.mpr ⟨1, rfl⟩

/-- C8: an empty field table produces nothing: `generateCue` emits no
header, imports, definitions or fields — no document at all — and a
declaration that resolves to a record type with zero fields leaves the
service (and so its empty field table) unchanged. -/
theorem empty_field_table_no_document (name : String) (decls : List Decl)
    (parse : String → Option CueNode) (imps : List (String × String))
    (usage : List (Nat × Nat)) (fuel : Nat) :
    generateCue ⟨name, decls, parse, imps, [], usage⟩ fuel = .ok none ∧
    ∀ typ : SchemaType,
      resolveStructFields ⟨name, decls, parse, imps, [], usage⟩ typ = some [] →
      registerTopLevelField ⟨name, decls, parse, imps, [], usage⟩ fuel typ =
        .ok ⟨name, decls, parse, imps, [], usage⟩ := by
  refine ⟨rfl, ?_⟩
  intro typ h
  simp only [registerTopLevelField, h]
  rfl

/-- Witness for `empty_field_table_no_document` at a concrete service with
one declaration whose record type has zero fields. -/
theorem empty_field_table_no_document_witness :
    generateCue ⟨"s", [⟨"Empty", .struct [], []⟩], fun _ => none, [], [], []⟩ 1 = .ok none ∧
    registerTopLevelField ⟨"s", [⟨"Empty", .struct [], []⟩], fun _ => none, [], [], []⟩ 1
        (.named 0) =
      .ok ⟨"s", [⟨"Empty", .struct [], []⟩], fun _ => none, [], [], []⟩ :=
  ⟨(empty_field_table_no_document "s" [⟨"Empty", .struct [], []⟩] (fun _ => none) [] [] 1).1,
   (empty_field_table_no_document "s" [⟨"Empty", .struct [], []⟩] (fun _ => none) [] [] 1).2
     (.named 0) rfl⟩

/-! ### The field merge -/

/-- Counterexample to C3: in `svcOptional` the label "x" is contributed by
two declarations and the second one carries `json:",omitempty"`, yet the
single merged field in the emitted document is NOT marked optional — the
merge in `registerTopLevelField` never transfers the incoming field's
optional marker, so only the first-seen declaration's marker survives. -/
theorem merge_drops_later_optional_marker :
    ((registerTopLevelField svcOptional 2 (.named 0)).bind fun s1 =>
      (registerTopLevelField s1 2 (.named 1)).bind fun s2 =>
        generateCue s2 2) =
      .ok (some
        ⟨[.pkg "svc",
          .fieldDecl (.field (.ident "x" false) (.ident "string" false) false [])],
         [generatedFileHeader]⟩) := by rfl

/-- C3 (amended): the merge of an incoming field into an existing Output
Field always keeps the existing field's optional marker — the merged field
is optional exactly when the declaration that first introduced the label
marked it optional, and optional markers of later declarations are
discarded. -/
theorem merge_preserves_first_optional (ex incoming : CueNode) :
    fieldOptional (mergeExisting ex incoming) = fieldOptional ex := by
  cases ex <;> cases incoming <;> rfl

/-- Witness for `merge_preserves_first_optional` at concrete fields: an
optional incoming field does not change the non-optional existing one. -/
theorem merge_preserves_first_optional_witness :
    fieldOptional
        (mergeExisting (.field (.ident "x" false) (.ident "string" false) false [])
          (.field (.ident "x" false) (.ident "string" false) true [])) =
      some false :=
  merge_preserves_first_optional (.field (.ident "x" false) (.ident "string" false) false [])
    (.field (.ident "x" false) (.ident "string" false) true [])

/-- C4, evaluation at the failing input: merging two declarations of field
"x" with the identical one-line comment leaves a single-line comment block
(the line is not duplicated), yet the block IS repositioned: its position
is forced to 0 and the first comment's slash is moved to a new section
(`newSection = true`), forcing a blank-line separation.  The guard in
`registerTopLevelField` is `len(existingCommentGrp.List) > 0` — which is
always true on that branch — although the code's own comment says the move
should happen when the group "is now multiline". -/
theorem reposition_fires_on_single_line_union :
    ((registerTopLevelField svcDocline 2 (.named 0)).bind fun s1 =>
        registerTopLevelField s1 2 (.named 1)).map Service.topLevelFields =
      .ok [.field (.ident "x" false) (.ident "string" false) false
            [⟨0, [⟨"// docline", true⟩]⟩]] := by rfl

/-- C2: merging a field into the field table when a field with the same
label, an identical (deep-equal) value expression, and identical or absent
comments already exists leaves the table unchanged in size and does not
turn the value into a self-conjunction: the merged entry keeps the value
`v` (no "T AND T"), for an incoming field without comments the merge is
the identity on the existing field, and in every case the comment line
texts are unchanged (no line is duplicated). -/
theorem merge_self_identity
    (st : List CueNode) (name : String) (exLab inLab v : CueNode)
    (exOpt inOpt : Bool) (exCs inCs : List CommentGroup)
    (hname : labelName (.field inLab v inOpt inCs) = some name)
    (hfound : st.any (fun e => labelName e == some name) = true)
    (hcs : inCs = [] ∨ inCs = exCs) :
    (∃ st', registerField st (.field inLab v inOpt inCs) = .ok st' ∧
      st'.length = st.length) ∧
    fieldValue (mergeExisting (.field exLab v exOpt exCs) (.field inLab v inOpt inCs)) =
      some v ∧
    (inCs = [] →
      mergeExisting (.field exLab v exOpt exCs) (.field inLab v inOpt inCs) =
        .field exLab v exOpt exCs) ∧
    commentTexts (fieldComments (mergeExisting (.field exLab v exOpt exCs)
      (.field inLab v inOpt inCs))) = commentTexts exCs := by
  refine ⟨?_, ?_, ?_, ?_⟩
  · refine ⟨st.map (fun e => if labelName e == some name then
      mergeExisting e (.field inLab v inOpt inCs) else e), ?_, by simp⟩
    simp [registerField, hname, hfound]
  · simp [mergeExisting, fieldValue, beqNode_refl]
  · intro h
    subst h
    simp [mergeExisting, beqNode_refl]
  · rcases hcs with h | h
    · subst h
      simp [mergeExisting, beqNode_refl, fieldComments]
    · subst h
      cases inCs with
      | nil => simp [mergeExisting, beqNode_refl, fieldComments]
      | cons g gs =>
        have hfold := @foldl_merge_no_op (g :: gs) (g :: gs)
          (fun cg hm => commentAlreadyPresent_of_mem hm)
        simp only [mergeExisting, fieldComments, List.isEmpty_cons, Bool.false_eq_true,
          if_false, hfold]
        exact commentTexts_repositionFirstGroup (g :: gs)

/-- Witness for `merge_self_identity` at a concrete table and field. -/
theorem merge_self_identity_witness :
    (∃ st', registerField
        [CueNode.field (.ident "x" false) (.ident "string" false) false [⟨0, [⟨"// d", false⟩]⟩]]
        (.field (.ident "x" false) (.ident "string" false) false [⟨0, [⟨"// d", false⟩]⟩]) =
          .ok st' ∧ st'.length = 1) ∧
    fieldValue
        (mergeExisting
          (.field (.ident "x" false) (.ident "string" false) false [⟨0, [⟨"// d", false⟩]⟩])
          (.field (.ident "x" false) (.ident "string" false) false [⟨0, [⟨"// d", false⟩]⟩])) =
      some (.ident "string" false) ∧
    commentTexts (fieldComments
        (mergeExisting
          (.field (.ident "x" false) (.ident "string" false) false [⟨0, [⟨"// d", false⟩]⟩])
          (.field (.ident "x" false) (.ident "string" false) false [⟨0, [⟨"// d", false⟩]⟩]))) =
      commentTexts [⟨0, [⟨"// d", false⟩]⟩] := by
  have h := merge_self_identity
    [CueNode.field (.ident "x" false) (.ident "string" false) false [⟨0, [⟨"// d", false⟩]⟩]]
    "x" (.ident "x" false) (.ident "x" false) (.ident "string" false) false false
    [⟨0, [⟨"// d", false⟩]⟩] [⟨0, [⟨"// d", false⟩]⟩] rfl (by rfl) (Or.inr rfl)
  exact ⟨h.1, h.2.1, h.2.2.2⟩

/-! ### Tag handling -/

theorem fieldToCue_single_tag (s : Service) (fuel : Nat) (fname : String)
    (ftyp : SchemaType) (fdoc : List String) (tag : Tag) (v : CueNode)
    (hv : toCueType s fuel ftyp = .ok v) :
    fieldToCue s fuel (.mk fname ftyp fdoc [tag]) =
      (applyTag s.parse (fname, v, false) tag).map (fun r =>
        let base : CueNode := .field (.ident r.1 false) r.2.1 r.2.2 []
        if fdoc ≠ [] then addCommentToField base fdoc else base) := by
  show (do
      let v' ← toCueType s fuel ftyp
      let r ← List.foldlM (applyTag s.parse) (fname, v', false) [tag]
      let base : CueNode := .field (.ident r.1 false) r.2.1 r.2.2 []
      pure (if fdoc ≠ [] then addCommentToField base fdoc else base)) = _
  rw [hv]
  show (do
      let r ← List.foldlM (applyTag s.parse) (fname, v, false) [tag]
      let base : CueNode := .field (.ident r.1 false) r.2.1 r.2.2 []
      pure (if fdoc ≠ [] then addCommentToField base fdoc else base)) = _
  rw [List.foldlM_cons]
  cases h : applyTag s.parse (fname, v, false) tag with
  | error msg => rfl
  | ok r => rfl

theorem structToFields_cons_err (s : Service) (fuel : Nat) (fld : SchemaField)
    (rest : List SchemaField) (msg : String) (h : fieldToCue s fuel fld = .error msg) :
    structToFields s fuel (fld :: rest) = .error msg := by
  unfold structToFields
  rw [List.mapM_cons, h]
  rfl

theorem registerTopLevelField_err (s : Service) (fuel : Nat) (typ0 : SchemaType)
    (fields : List SchemaField) (msg : String)
    (hres : resolveStructFields s typ0 = some fields)
    (hs : structToFields s fuel fields = .error msg) :
    registerTopLevelField s fuel typ0 = .error msg := by
  unfold registerTopLevelField
  simp only [hres]
  rw [hs]

/-- C5: a "cue" tag with a non-empty name is parsed as a CUE expression and
conjoined (AND) with the field's translated value; when parsing fails the
field construction fails with an error — and that error aborts the whole
`registerTopLevelField` pass for the declaration — rather than skipping the
field. -/
theorem cue_tag_conjoins_or_fails (s : Service) (fuel : Nat) (fname : String)
    (ftyp : SchemaType) (fdoc : List String) (cueName : String) (opts : List String)
    (v : CueNode) (hname : cueName ≠ "") (hv : toCueType s fuel ftyp = .ok v) :
    (s.parse cueName = none →
      fieldToCue s fuel (.mk fname ftyp fdoc [⟨"cue", cueName, opts⟩]) =
        .error ("failed to parse cue tag: " ++ cueName) ∧
      ∀ (typ0 : SchemaType) (rest : List SchemaField),
        resolveStructFields s typ0 =
            some (.mk fname ftyp fdoc [⟨"cue", cueName, opts⟩] :: rest) →
        registerTopLevelField s fuel typ0 =
          .error ("failed to parse cue tag: " ++ cueName)) ∧
    ∀ e : CueNode, s.parse cueName = some e →
      ∃ f, fieldToCue s fuel (.mk fname ftyp fdoc [⟨"cue", cueName, opts⟩]) = .ok f ∧
        fieldValue f = some (.and v e) := by
  have htag := fieldToCue_single_tag s fuel fname ftyp fdoc ⟨"cue", cueName, opts⟩ v hv
  constructor
  · intro hp
    have happ : applyTag s.parse (fname, v, false) ⟨"cue", cueName, opts⟩ =
        .error ("failed to parse cue tag: " ++ cueName) := by
      simp [applyTag, hname, hp]
    have herr : fieldToCue s fuel (.mk fname ftyp fdoc [⟨"cue", cueName, opts⟩]) =
        .error ("failed to parse cue tag: " ++ cueName) := by
      rw [htag, happ]; rfl
    exact ⟨herr, fun typ0 rest hres =>
      registerTopLevelField_err s fuel typ0 _ _ hres
        (structToFields_cons_err s fuel _ rest _ herr)⟩
  · intro e hp
    have happ : applyTag s.parse (fname, v, false) ⟨"cue", cueName, opts⟩ =
        .ok (fname, .and v e, opts.contains "opt") := by
      simp [applyTag, hname, hp]
    refine ⟨(if fdoc ≠ [] then
        addCommentToField (.field (.ident fname false) (.and v e) (opts.contains "opt") []) fdoc
      else .field (.ident fname false) (.and v e) (opts.contains "opt") []), ?_, ?_⟩
    · rw [htag, happ]
      rfl
    · by_cases hd : fdoc = [] <;> simp [hd, addCommentToField, fieldValue]

/-- Witness for `cue_tag_conjoins_or_fails`: at the concrete service
`svcParse`, a field with the unparseable fragment "bad" fails field
construction and the whole registration pass, and a field with the
parseable fragment "int & >=0" gets the conjunction of its translated type
and the parsed expression. -/
theorem cue_tag_conjoins_or_fails_witness :
    (fieldToCue svcParse 1 (.mk "x" (.builtin Builtin_INT) [] [⟨"cue", "bad", []⟩]) =
      .error "failed to parse cue tag: bad" ∧
     registerTopLevelField svcParse 1 (.named 0) = .error "failed to parse cue tag: bad") ∧
    ∃ f, fieldToCue svcParse 1 (.mk "x" (.builtin Builtin_INT) [] [⟨"cue", "int & >=0", []⟩]) =
        .ok f ∧
      fieldValue f = some (.and (.ident "int" false)
        (.and (.ident "int" false) (.ident ">=0" false))) := by
  have h1 := cue_tag_conjoins_or_fails svcParse 1 "x" (.builtin Builtin_INT) [] "bad" []
    (.ident "int" false) (by decide) rfl
  have h2 := cue_tag_conjoins_or_fails svcParse 1 "x" (.builtin Builtin_INT) [] "int & >=0" []
    (.ident "int" false) (by decide) rfl
  have he := h1.1 rfl
  exact ⟨⟨he.1, he.2 (.named 0) [] rfl⟩,
    h2.2 (.and (.ident "int" false) (.ident ">=0" false)) rfl⟩

/-- C10: tag option handling is independent of the tag's name.  A "json"
tag with an empty name but option "omitempty" still marks the field
optional without overriding its label, and a "cue" tag with an empty name
but option "opt" still marks the field optional without any expression
being parsed: the construction succeeds for every parser and leaves the
translated value untouched, so no parse error can arise from such a tag. -/
theorem tag_options_independent_of_name (s : Service) (fuel : Nat) (fname : String)
    (ftyp : SchemaType) (fdoc : List String) (opts : List String) (v : CueNode)
    (hv : toCueType s fuel ftyp = .ok v) :
    (opts.contains "omitempty" = true →
      ∃ f, fieldToCue s fuel (.mk fname ftyp fdoc [⟨"json", "", opts⟩]) = .ok f ∧
        labelName f = some fname ∧ fieldOptional f = some true ∧ fieldValue f = some v) ∧
    (opts.contains "opt" = true →
      ∃ f, fieldToCue s fuel (.mk fname ftyp fdoc [⟨"cue", "", opts⟩]) = .ok f ∧
        labelName f = some fname ∧ fieldOptional f = some true ∧ fieldValue f = some v) := by
  constructor
  · intro hopt
    have happ : applyTag s.parse (fname, v, false) ⟨"json", "", opts⟩ = .ok (fname, v, true) := by
      simp [applyTag, hopt, show "omitempty" ∈ opts from List.elem_iff.mp hopt]
    refine ⟨(if fdoc ≠ [] then
        addCommentToField (.field (.ident fname false) v true []) fdoc
      else .field (.ident fname false) v true []), ?_, ?_⟩
    · rw [fieldToCue_single_tag s fuel fname ftyp fdoc ⟨"json", "", opts⟩ v hv, happ]
      rfl
    · by_cases hd : fdoc = [] <;>
        simp [hd, addCommentToField, labelName, fieldOptional, fieldValue]
  · intro hopt
    have happ : applyTag s.parse (fname, v, false) ⟨"cue", "", opts⟩ = .ok (fname, v, true) := by
      simp [applyTag, hopt, show "opt" ∈ opts from List.elem_iff.mp hopt]
    refine ⟨(if fdoc ≠ [] then
        addCommentToField (.field (.ident fname false) v true []) fdoc
      else .field (.ident fname false) v true []), ?_, ?_⟩
    · rw [fieldToCue_single_tag s fuel fname ftyp fdoc ⟨"cue", "", opts⟩ v hv, happ]
      rfl
    · by_cases hd : fdoc = [] <;>
        simp [hd, addCommentToField, labelName, fieldOptional, fieldValue]

/-- Witness for `tag_options_independent_of_name` at a concrete service
whose parser rejects every fragment: both nameless tags still mark the
field optional and no parse error arises. -/
theorem tag_options_independent_of_name_witness :
    (∃ f, fieldToCue ⟨"t", [], fun _ => none, [], [], []⟩ 1
        (.mk "y" (.builtin Builtin_BOOL) [] [⟨"json", "", ["omitempty"]⟩]) = .ok f ∧
      labelName f = some "y" ∧ fieldOptional f = some true ∧
      fieldValue f = some (.ident "bool" false)) ∧
    ∃ f, fieldToCue ⟨"t", [], fun _ => none, [], [], []⟩ 1
        (.mk "y" (.builtin Builtin_BOOL) [] [⟨"cue", "", ["opt"]⟩]) = .ok f ∧
      labelName f = some "y" ∧ fieldOptional f = some true ∧
      fieldValue f = some (.ident "bool" false) := by
  have h := tag_options_independent_of_name ⟨"t", [], fun _ => none, [], [], []⟩ 1 "y"
    (.builtin Builtin_BOOL) [] ["omitempty"] (.ident "bool" false) rfl
  have h' := tag_options_independent_of_name ⟨"t", [], fun _ => none, [], [], []⟩ 1 "y"
    (.builtin Builtin_BOOL) [] ["opt"] (.ident "bool" false) rfl
  exact ⟨h.1 (by decide), h'.2 (by decide)⟩

/-! ### Hoisting and document assembly -/

/-- C1: for a named type whose global usage count is at most one the
translator inlines the resolved declaration body at the use site and the
hoist list (from which `generateCue` emits standalone definitions) does not
contain it; for a usage count of two or more every use site translates to a
reference expression carrying the type's assigned output identifier, and
the hoist list contains the type exactly once, so exactly one standalone
definition is emitted. -/
theorem hoisting_threshold (s : Service) (id : Nat) (d : Decl) (fuel : Nat)
    (hkeys : (s.typeUsage.map Prod.fst).Nodup)
    (hd : s.decls.get? id = some d) :
    (countOf s.typeUsage id ≤ 1 →
      toCueType s (fuel + 1) (.named id) = toCueType s fuel d.typ ∧
      id ∉ namesWithCountsOver s.typeUsage 1) ∧
    (1 < countOf s.typeUsage id →
      toCueType s (fuel + 1) (.named id) = .ok (.ident (defName s id) false) ∧
      (namesWithCountsOver s.typeUsage 1).count id = 1) := by
  constructor
  · intro hle
    refine ⟨?_, not_mem_namesWithCountsOver_of_count_le hkeys hle⟩
    show (if countOf s.typeUsage id ≤ 1 then
        match s.decls.get? id with
        | none => Except.error "cannot resolve type"
        | some d => toCueType s fuel d.typ
      else Except.ok (.ident (defName s id) false)) = toCueType s fuel d.typ
    rw [if_pos hle, hd]
  · intro hgt
    constructor
    · show (if countOf s.typeUsage id ≤ 1 then
          match s.decls.get? id with
          | none => Except.error "cannot resolve type"
          | some d => toCueType s fuel d.typ
        else Except.ok (.ident (defName s id) false)) =
        Except.ok (.ident (defName s id) false)
      rw [if_neg (by omega)]
    · obtain ⟨c, hc⟩ : ∃ c, s.typeUsage.lookup id = some c := by
        cases h : s.typeUsage.lookup id with
        | none => simp [countOf, h] at hgt
        | some c => exact ⟨c, rfl⟩
      have hcc : 1 < c := by simpa [countOf, hc] using hgt
      exact count_namesWithCountsOver_eq_one hkeys (mem_of_lookup_eq_some hc) hcc

/-- Witness for `hoisting_threshold` at `svcHoist`: the once-used type is
inlined and not hoisted, the twice-used type becomes a reference and is
hoisted exactly once. -/
theorem hoisting_threshold_witness :
    (toCueType svcHoist 1 (.named 0) = toCueType svcHoist 0 (.struct []) ∧
      0 ∉ namesWithCountsOver svcHoist.typeUsage 1) ∧
    (toCueType svcHoist 1 (.named 1) = .ok (.ident (defName svcHoist 1) false) ∧
      (namesWithCountsOver svcHoist.typeUsage 1).count 1 = 1) := by
  have h0 := hoisting_threshold svcHoist 0 ⟨"Single", .struct [], []⟩ 0 (by decide) rfl
  have h1 := hoisting_threshold svcHoist 1 ⟨"Shared", .struct [], []⟩ 0 (by decide) rfl
  exact ⟨h0.1 (by decide), h1.2 (by decide)⟩

/-- C9: with a non-empty field table the assembled document is, in order:
the package clause (with the fixed generated-file comment block as the
file's comment), the import declaration (present exactly when imports are
needed) whose specifications are sorted lexicographically by path and carry
an explicit alias exactly when the desired local name differs from the
path, then the hoisted definitions produced by `genDefs` (one per named
type with usage count over one), then the merged top-level fields in
first-seen order. -/
theorem document_assembly (s : Service) (fuel : Nat) (defs : List CueNode)
    (hne : s.topLevelFields ≠ [])
    (hdefs : genDefs s fuel = .ok defs) :
    generateCue s fuel = .ok (some
      ⟨.pkg s.svcName ::
          ((if s.neededImports.isEmpty then ([] : List CueDecl)
            else [.importDecl (importSpecs s.neededImports)]) ++
            (defs.map .fieldDecl ++ s.topLevelFields.map .fieldDecl)),
        [generatedFileHeader]⟩) ∧
    List.Sorted (· ≤ ·) ((importSpecs s.neededImports).map ImportSpec.path) ∧
    ∀ p nm : String, (p, nm) ∈ s.neededImports → (s.neededImports.map Prod.fst).Nodup →
      ImportSpec.mk (if nm = p then none else some nm) p ∈ importSpecs s.neededImports := by
  refine ⟨?_, ?_, ?_⟩
  · have hne' : s.topLevelFields.isEmpty = false := by
      cases h : s.topLevelFields with
      | nil => exact absurd h hne
      | cons a l => rfl
    unfold generateCue
    rw [hne']
    simp only [Bool.false_eq_true, if_false, hdefs]
  · have hmap : (importSpecs s.neededImports).map ImportSpec.path =
        List.insertionSort (· ≤ ·) (s.neededImports.map Prod.fst) := by
      unfold importSpecs
      rw [List.map_map]
      generalize List.insertionSort (· ≤ ·) (s.neededImports.map Prod.fst) = l
      induction l with
      | nil => rfl
      | cons a t ih => simp only [List.map_cons, ih]; rfl
    rw [hmap]
    exact List.sorted_insertionSort _ _
  · intro p nm hmem hnd
    have hlookup : s.neededImports.lookup p = some nm := lookup_eq_some_of_nodup hnd hmem
    unfold importSpecs
    refine List.mem_map.mpr ⟨p, ?_, ?_⟩
    · exact (List.mem_insertionSort _).mpr (List.mem_map.mpr ⟨(p, nm), hmem, rfl⟩)
    · simp [hlookup]

/-- Witness for `document_assembly` at `svcAssembly`. -/
theorem document_assembly_witness :
    generateCue svcAssembly 2 = .ok (some
      ⟨[.pkg "svc", .importDecl [⟨none, "time"⟩],
        .fieldDecl (.field (.ident "#Shared" true) (.structLit []) false []),
        .fieldDecl (.field (.ident "x" false) (.ident "string" false) false [])],
       [generatedFileHeader]⟩) ∧
    List.Sorted (· ≤ ·) ((importSpecs svcAssembly.neededImports).map ImportSpec.path) := by
  have h := document_assembly svcAssembly 2
    [.field (.ident "#Shared" true) (.structLit []) false []]
    (List.cons_ne_nil _ _) rfl
  refine ⟨?_, h.2.1⟩
  rw [h.1]
  rfl
